import Mathlib

/-!
# Verification of graphpeeler

A shallow embedding of `src/graphpeeler.py` and proofs about it.

The python module expands a directed graph, given as a pandas dataframe of
edges, outward from a seed set of nodes in discrete layers:

* `get_next_layer` — deterministic generator: each step yields the set of
  "to" endpoints of edges whose "from" endpoint is visited, minus visited.
* `get_next_layer_probabilistic` — probabilistic generator: each step keeps
  only "candidate" edges (from visited to unvisited), draws one uniform
  value per candidate row, activates a row iff `weight / correction > draw`,
  and yields the pair (new nodes, candidate rows).
* `layer_realisation` — drives the probabilistic generator, recording each
  layer, with a stability counter and two stop conditions.

Modelling choices:

* A dataframe row is a `Row`: the first two (identifier) columns are `a` and
  `b` (node ids, modelled as `Nat`), the remaining named numeric columns are
  an association list `wcols : List (String × ℚ)`.  The table (`EdgeTable`)
  also records which numeric column names exist (`wnames`) — in pandas,
  selecting a missing column raises `KeyError` regardless of the number of
  rows, so column existence is a table-level fact.
* `np.random.seed(seed)` followed by successive `np.random.rand(k)` calls is
  modelled by an infinite stream `rand : Nat → ℚ` of draws (the stream the
  seeded generator would produce, each value in `[0,1)`) together with a
  counter `draws` of how many values have been consumed.  A fixed seed
  determines a fixed stream, so "same seed" is modelled as "same stream".
* Python float arithmetic is modelled by exact rationals `ℚ`.
* The `while True:` loop of `layer_realisation` is modelled with explicit
  fuel (`lr_fuel`, a bound large enough that the loop always finishes, which
  is proved below); running out of fuel returns `none`.
* A raised `KeyError` is modelled as `Except.error "KeyError"`.
-/

/-- One row of the edge dataframe: the two id columns (in dataframe column
order) and the remaining named numeric columns. -/
structure Row where
  a : Nat
  b : Nat
  wcols : List (String × ℚ)
deriving DecidableEq

/-- The edge dataframe: an ordered list of rows (duplicates permitted) plus
the names of the numeric columns present in the frame. -/
structure EdgeTable where
  rows : List Row
  wnames : List String
deriving DecidableEq

/-- The "from" endpoint of a row: `plist[0]` after the `prepost` swap
(`plist = df.columns[:2]`, reversed when `prepost == 'post'`). -/
def Row.fromId (prepost : String) (r : Row) : Nat :=
  if prepost = "post" then r.b else r.a

/-- The "to" endpoint of a row: `plist[1]` after the `prepost` swap. -/
def Row.toId (prepost : String) (r : Row) : Nat :=
  if prepost = "post" then r.a else r.b

/-- The numeric value of column `pw` in row `r` (`row[pw]`).  Rows of a
well-formed table carry every column of the table's schema; the default `0`
is never reached on well-formed input. -/
def Row.wval (r : Row) (pw : String) : ℚ :=
  (List.lookup pw r.wcols).getD 0

/-! ## Deterministic expander: `get_next_layer` -/

/-- One step of the body of `get_next_layer`: from the current `visited`
set, `next_layer = set(df[df[plist[0]].isin(visited)][plist[1]])`,
`new_nodes = next_layer - visited`, `visited |= new_nodes`.  Returns
`(new_nodes, visited after the step)`. -/
def get_next_layer_step (df : EdgeTable) (prepost : String) (visited : Finset Nat) :
    Finset Nat × Finset Nat :=
  let next_layer :=
    ((df.rows.filter (fun r => decide (r.fromId prepost ∈ visited))).map
      (fun r => r.toId prepost)).toFinset
  let new_nodes := next_layer \ visited
  (new_nodes, visited ∪ new_nodes)

/-- The visited set of the deterministic generator after `k` yields
(initially `set(start_ids)`). -/
def det_visited (df : EdgeTable) (prepost : String) (start : Finset Nat) : Nat → Finset Nat
  | 0 => start
  | k+1 => (get_next_layer_step df prepost (det_visited df prepost start k)).2

/-- The `k`-th value yielded by `get_next_layer` (0-indexed). -/
def det_layer (df : EdgeTable) (prepost : String) (start : Finset Nat) (k : Nat) : Finset Nat :=
  (get_next_layer_step df prepost (det_visited df prepost start k)).1

/-! ## Probabilistic expander: `get_next_layer_probabilistic` -/

/-- Generator state: the visited set and the number of uniform draws the
seeded random stream has already produced. -/
structure PState where
  visited : Finset Nat
  draws : Nat
deriving DecidableEq

/-- The candidate rows `try_to_visit`: rows whose "from" endpoint is
visited and whose "to" endpoint is not
(`df[(df[plist[0]].isin(visited))&(~df[plist[1]].isin(visited))]`). -/
def try_to_visit (df : EdgeTable) (prepost : String) (visited : Finset Nat) : List Row :=
  df.rows.filter (fun r => decide (r.fromId prepost ∈ visited ∧ r.toId prepost ∉ visited))

/-- The activation test applied to one candidate row:
`try_to_visit[prop_weight]/correction > r`. -/
def activates (w correction r : ℚ) : Bool :=
  decide (w / correction > r)

/-- The rows `actually_visit`, paired with their position in
`try_to_visit`: row `i` of `try_to_visit` is kept iff its weight divided by
`correction` exceeds the `i`-th fresh uniform draw
(`try_to_visit[try_to_visit[prop_weight]/correction > r]` with
`r = np.random.rand(len(try_to_visit))`). -/
def actually_visit (df : EdgeTable) (prepost pw : String) (correction : ℚ)
    (rand : Nat → ℚ) (s : PState) : List (Nat × Row) :=
  ((try_to_visit df prepost s.visited).enum).filter
    (fun p => activates (p.2.wval pw) correction (rand (s.draws + p.1)))

/-- One step of the body of `get_next_layer_probabilistic` (assuming the
weight column exists): returns the yielded pair `(new_nodes, try_to_visit)`
and the successor state.  The draw counter advances by `len(try_to_visit)`
whether or not any row activates. -/
def prob_step (df : EdgeTable) (prepost pw : String) (correction : ℚ)
    (rand : Nat → ℚ) (s : PState) : Finset Nat × List Row × PState :=
  let ttv := try_to_visit df prepost s.visited
  let av := actually_visit df prepost pw correction rand s
  let next_layer := (av.map (fun p => p.2.toId prepost)).toFinset
  let new_nodes := next_layer \ s.visited
  (new_nodes, ttv, ⟨s.visited ∪ new_nodes, s.draws + ttv.length⟩)

/-- One step of `get_next_layer_probabilistic` including the pandas column
lookup: selecting column `pw` from the dataframe raises `KeyError` when the
column is absent, independently of how many rows survived filtering. -/
def prob_step_checked (df : EdgeTable) (prepost pw : String) (correction : ℚ)
    (rand : Nat → ℚ) (s : PState) : Except String (Finset Nat × List Row × PState) :=
  if pw ∈ df.wnames then .ok (prob_step df prepost pw correction rand s)
  else .error "KeyError"

/-- Constructing the generator `get_next_layer_probabilistic(...)` only
builds its initial state (python generators run no body code before the
first `next`): visited is `set(start_ids)`, no draws consumed yet. -/
def prob_init (start : Finset Nat) : PState :=
  ⟨start, 0⟩

/-! ## Orchestrator: `layer_realisation` -/

/-- The loop state of `layer_realisation`: the generator state, the layer
counter `pl`, the layer map `pl_dict` (an ordered association list, as the
python dict is keyed `0,1,2,…` in insertion order), the stability counter
`layer_change_count`, and `prev_unvisited` (the previous round's candidate
count). -/
structure RState where
  ps : PState
  pl : Nat
  pl_dict : List (Nat × Finset Nat)
  layer_change_count : Nat
  prev_unvisited : Nat

/-- The `while True:` loop of `layer_realisation`, with explicit fuel.
Each round: pull `(next_layer, try_to_visit)` from the generator, record
`pl_dict[pl+1] = next_layer`, increment the stability counter, reset it to
`0` when the candidate count changed, stop when the candidate count is `0`,
stop when the counter equals `N`, otherwise remember the count and loop. -/
def lr_loop (df : EdgeTable) (prepost pw : String) (correction : ℚ) (rand : Nat → ℚ)
    (N : Nat) : Nat → RState → Except String (Option (List (Nat × Finset Nat)))
  | 0, _ => .ok none
  | fuel+1, st =>
    match prob_step_checked df prepost pw correction rand st.ps with
    | .error e => .error e
    | .ok (next_layer, ttv, ps2) =>
      let pl2 := st.pl + 1
      let dict2 := st.pl_dict ++ [(pl2, next_layer)]
      let lcc2 := if ttv.length ≠ st.prev_unvisited then 0 else st.layer_change_count + 1
      if ttv.length = 0 then .ok (some dict2)
      else if lcc2 = N then .ok (some dict2)
      else lr_loop df prepost pw correction rand N fuel ⟨ps2, pl2, dict2, lcc2, ttv.length⟩

/-- Every node id occurring in the table or in the start set.  The visited
set always stays inside this finite universe. -/
def nodeUniv (df : EdgeTable) (start : Finset Nat) : Finset Nat :=
  start ∪ (df.rows.map (fun r => r.a)).toFinset ∪ (df.rows.map (fun r => r.b)).toFinset

/-- Fuel sufficient for `lr_loop` to reach a stop condition (proved below):
the loop's measure starts below this value and strictly decreases. -/
def lr_fuel (df : EdgeTable) (start : Finset Nat) (N : Nat) : Nat :=
  (nodeUniv df start).card * (N + 2) + N + 2

/-- `layer_realisation(df, start_ids, prepost, seed, prop_weight,
correction, N)`.  The seeded numpy stream is the parameter `rand`;
`N == None` defaults to `2`.  Returns the layer map, or `Except.error` for a
raised `KeyError`; the inner `none` (never reached, as proved below) stands
for fuel exhaustion. -/
def layer_realisation (df : EdgeTable) (start_ids : List Nat) (prepost : String)
    (rand : Nat → ℚ) (prop_weight : String) (correction : ℚ) (N : Option Nat) :
    Except String (Option (List (Nat × Finset Nat))) :=
  let n := N.getD 2
  let start_set := start_ids.toFinset
  lr_loop df prepost prop_weight correction rand n (lr_fuel df start_set n)
    ⟨prob_init start_set, 0, [(0, start_set)], 0, 0⟩

/-! ## Abstract round sequences

The generator's trajectory, described directly as sequences indexed by the
round number: state before round `k+1`, layer yielded by round `k+1`,
candidate count of round `k+1`, and the orchestrator's bookkeeping
(`prev_unvisited` and `layer_change_count` before round `k+1`). -/

/-- Generator state after `k` rounds. -/
def prob_state (df : EdgeTable) (prepost pw : String) (correction : ℚ)
    (rand : Nat → ℚ) (start : Finset Nat) : Nat → PState
  | 0 => prob_init start
  | k+1 => (prob_step df prepost pw correction rand
      (prob_state df prepost pw correction rand start k)).2.2

/-- The new-node set yielded by round `k+1` (0-indexed by `k`). -/
def prob_layer (df : EdgeTable) (prepost pw : String) (correction : ℚ)
    (rand : Nat → ℚ) (start : Finset Nat) (k : Nat) : Finset Nat :=
  (prob_step df prepost pw correction rand
    (prob_state df prepost pw correction rand start k)).1

/-- The candidate-edge count `len(try_to_visit)` of round `k+1`. -/
def cand_count (df : EdgeTable) (prepost pw : String) (correction : ℚ)
    (rand : Nat → ℚ) (start : Finset Nat) (k : Nat) : Nat :=
  (try_to_visit df prepost (prob_state df prepost pw correction rand start k).visited).length

/-- `prev_unvisited` before round `k+1`: `0` initially, afterwards the
previous round's candidate count. -/
def prev_count (df : EdgeTable) (prepost pw : String) (correction : ℚ)
    (rand : Nat → ℚ) (start : Finset Nat) : Nat → Nat
  | 0 => 0
  | k+1 => cand_count df prepost pw correction rand start k

/-- `layer_change_count` before round `k+1`: reset to `0` by a round whose
candidate count differs from the previous one, else incremented. -/
def lcc (df : EdgeTable) (prepost pw : String) (correction : ℚ)
    (rand : Nat → ℚ) (start : Finset Nat) : Nat → Nat
  | 0 => 0
  | k+1 =>
    if cand_count df prepost pw correction rand start k ≠
        prev_count df prepost pw correction rand start k then 0
    else lcc df prepost pw correction rand start k + 1

/-- Round `i+1` triggers a stop: its candidate count is `0`, or the
stability counter it leaves behind equals `N`. -/
def stop_trig (df : EdgeTable) (prepost pw : String) (correction : ℚ)
    (rand : Nat → ℚ) (start : Finset Nat) (N : Nat) (i : Nat) : Prop :=
  cand_count df prepost pw correction rand start i = 0 ∨
    lcc df prepost pw correction rand start (i+1) = N

instance stop_trig.instDecidable (df : EdgeTable) (prepost pw : String) (correction : ℚ)
    (rand : Nat → ℚ) (start : Finset Nat) (N : Nat) (i : Nat) :
    Decidable (stop_trig df prepost pw correction rand start N i) := by
  unfold stop_trig
  infer_instance

/-- The layer map after `R` probabilistic rounds: layer `0` is the start
set, layer `j+1` is the set yielded by round `j+1`. -/
def dict_upto (df : EdgeTable) (prepost pw : String) (correction : ℚ)
    (rand : Nat → ℚ) (start : Finset Nat) (R : Nat) : List (Nat × Finset Nat) :=
  (0, start) :: (List.range R).map
    (fun j => (j+1, prob_layer df prepost pw correction rand start j))

/-- The orchestrator's loop state before round `i+1`. -/
def abs_state (df : EdgeTable) (prepost pw : String) (correction : ℚ)
    (rand : Nat → ℚ) (start : Finset Nat) (i : Nat) : RState :=
  ⟨prob_state df prepost pw correction rand start i, i,
    dict_upto df prepost pw correction rand start i,
    lcc df prepost pw correction rand start i,
    prev_count df prepost pw correction rand start i⟩

/-- Union of all the layer sets in a layer-map fragment. -/
def set_union (l : List (Nat × Finset Nat)) : Finset Nat :=
  l.foldr (fun p acc => p.2 ∪ acc) ∅

/-- Loop measure before round `i+1`: unvisited part of the node universe,
weighted by `N+2`, plus a bounded term tracking the stability counter. -/
def phiM (df : EdgeTable) (prepost pw : String) (correction : ℚ) (rand : Nat → ℚ)
    (start : Finset Nat) (N i : Nat) : Nat :=
  (nodeUniv df start \ (prob_state df prepost pw correction rand start i).visited).card * (N+2) +
    (if cand_count df prepost pw correction rand start i =
        prev_count df prepost pw correction rand start i then
      N - lcc df prepost pw correction rand start i
    else N+1)

/-! ## Basic facts about the probabilistic round sequences -/

variable (df : EdgeTable) (prepost pw : String) (correction : ℚ) (rand : Nat → ℚ)
variable (start : Finset Nat)

lemma prob_layer_eq_sdiff (k : Nat) :
    prob_layer df prepost pw correction rand start k =
      ((actually_visit df prepost pw correction rand
          (prob_state df prepost pw correction rand start k)).map
        (fun p => p.2.toId prepost)).toFinset \
        (prob_state df prepost pw correction rand start k).visited := rfl

lemma visited_succ (k : Nat) :
    (prob_state df prepost pw correction rand start (k+1)).visited =
      (prob_state df prepost pw correction rand start k).visited ∪
        prob_layer df prepost pw correction rand start k := rfl

lemma draws_succ (k : Nat) :
    (prob_state df prepost pw correction rand start (k+1)).draws =
      (prob_state df prepost pw correction rand start k).draws +
        cand_count df prepost pw correction rand start k := rfl

lemma visited_zero : (prob_state df prepost pw correction rand start 0).visited = start := rfl

lemma visited_mono_succ (k : Nat) :
    (prob_state df prepost pw correction rand start k).visited ⊆
      (prob_state df prepost pw correction rand start (k+1)).visited := by
  rw [visited_succ]
  exact Finset.subset_union_left

lemma visited_mono {i j : Nat} (h : i ≤ j) :
    (prob_state df prepost pw correction rand start i).visited ⊆
      (prob_state df prepost pw correction rand start j).visited := by
  induction j with
  | zero => simp_all
  | succ j ih =>
    rcases Nat.lt_or_ge i (j+1) with hj | hj
    · exact (ih (Nat.lt_succ_iff.mp hj)).trans (visited_mono_succ df prepost pw correction rand start j)
    · have : i = j + 1 := le_antisymm h hj
      subst this
      exact subset_rfl

lemma layer_disjoint_visited (k : Nat) :
    Disjoint (prob_layer df prepost pw correction rand start k)
      (prob_state df prepost pw correction rand start k).visited := by
  rw [prob_layer_eq_sdiff]
  exact Finset.sdiff_disjoint

lemma layer_sub_visited_succ (k : Nat) :
    prob_layer df prepost pw correction rand start k ⊆
      (prob_state df prepost pw correction rand start (k+1)).visited := by
  rw [visited_succ]
  exact Finset.subset_union_right

lemma start_sub_visited (k : Nat) :
    start ⊆ (prob_state df prepost pw correction rand start k).visited :=
  visited_mono df prepost pw correction rand start (Nat.zero_le k)

lemma layers_disjoint {i j : Nat} (h : i < j) :
    Disjoint (prob_layer df prepost pw correction rand start i)
      (prob_layer df prepost pw correction rand start j) := by
  have h1 : prob_layer df prepost pw correction rand start i ⊆
      (prob_state df prepost pw correction rand start j).visited :=
    (layer_sub_visited_succ df prepost pw correction rand start i).trans
      (visited_mono df prepost pw correction rand start h)
  exact Finset.disjoint_of_subset_left h1
    (layer_disjoint_visited df prepost pw correction rand start j).symm

lemma start_disjoint_layer (j : Nat) :
    Disjoint start (prob_layer df prepost pw correction rand start j) :=
  Finset.disjoint_of_subset_left (start_sub_visited df prepost pw correction rand start j)
    (layer_disjoint_visited df prepost pw correction rand start j).symm

/-! ## The layer map `dict_upto` -/

lemma dict_upto_succ (R : Nat) :
    dict_upto df prepost pw correction rand start (R+1) =
      dict_upto df prepost pw correction rand start R ++
        [(R+1, prob_layer df prepost pw correction rand start R)] := by
  unfold dict_upto
  rw [List.range_succ, List.map_append]
  rfl

lemma set_union_append_single (l : List (Nat × Finset Nat)) (p : Nat × Finset Nat) :
    set_union (l ++ [p]) = set_union l ∪ p.2 := by
  induction l with
  | nil => simp [set_union]
  | cons q l ih =>
    simp only [List.cons_append, set_union, List.foldr_cons] at ih ⊢
    rw [ih, Finset.union_assoc]

lemma set_union_dict (k : Nat) :
    set_union (dict_upto df prepost pw correction rand start k) =
      (prob_state df prepost pw correction rand start k).visited := by
  induction k with
  | zero => simp [dict_upto, set_union, visited_zero]
  | succ k ih =>
    rw [dict_upto_succ, set_union_append_single, ih, visited_succ]

lemma dict_upto_take {k R : Nat} (h : k ≤ R) :
    (dict_upto df prepost pw correction rand start R).take (k+1) =
      dict_upto df prepost pw correction rand start k := by
  unfold dict_upto
  rw [List.take_cons, ← List.map_take, List.take_range]
  have h2 : (k + 1 - 1) ⊓ R = k := by omega
  rw [h2]
  omega

lemma dict_upto_length (R : Nat) :
    (dict_upto df prepost pw correction rand start R).length = R + 1 := by
  simp [dict_upto]

lemma mem_dict_upto {p : Nat × Finset Nat} {R : Nat}
    (h : p ∈ dict_upto df prepost pw correction rand start R) :
    p = (0, start) ∨ ∃ j < R, p = (j+1, prob_layer df prepost pw correction rand start j) := by
  unfold dict_upto at h
  rcases List.mem_cons.mp h with h | h
  · exact Or.inl h
  · right
    rcases List.mem_map.mp h with ⟨j, hj, rfl⟩
    exact ⟨j, List.mem_range.mp hj, rfl⟩

/-! ## The visited set stays inside the finite node universe -/

lemma toId_mem_univ {r : Row} (hr : r ∈ df.rows) :
    r.toId prepost ∈ nodeUniv df start := by
  unfold nodeUniv Row.toId
  by_cases h : prepost = "post" <;> simp only [h, if_pos, if_neg, ite_true, ite_false]
  · exact Finset.mem_union_left _ (Finset.mem_union_right _ (by
      simp only [List.mem_toFinset, List.mem_map]
      exact ⟨r, hr, rfl⟩))
  · exact Finset.mem_union_right _ (by
      simp only [List.mem_toFinset, List.mem_map]
      exact ⟨r, hr, rfl⟩)

lemma try_to_visit_sub (visited : Finset Nat) :
    try_to_visit df prepost visited ⊆ df.rows := by
  intro r hr
  exact List.mem_of_mem_filter hr

lemma layer_sub_univ (k : Nat) :
    prob_layer df prepost pw correction rand start k ⊆ nodeUniv df start := by
  rw [prob_layer_eq_sdiff]
  intro x hx
  have hx2 := Finset.mem_sdiff.mp hx
  rcases List.mem_map.mp (List.mem_toFinset.mp hx2.1) with ⟨p, hp, rfl⟩
  have hmem : p.2 ∈ try_to_visit df prepost
      (prob_state df prepost pw correction rand start k).visited := by
    have := List.mem_of_mem_filter hp
    exact List.snd_mem_of_mem_enum this
  exact toId_mem_univ df prepost start (try_to_visit_sub df prepost _ hmem)

lemma start_sub_univ : start ⊆ nodeUniv df start := by
  unfold nodeUniv
  exact (Finset.subset_union_left).trans Finset.subset_union_left

lemma visited_sub_univ (k : Nat) :
    (prob_state df prepost pw correction rand start k).visited ⊆ nodeUniv df start := by
  induction k with
  | zero =>
    rw [visited_zero]
    exact start_sub_univ df start
  | succ k ih =>
    rw [visited_succ]
    exact Finset.union_subset ih (layer_sub_univ df prepost pw correction rand start k)

/-! ## Characterization of the `layer_realisation` loop -/

lemma abs_state_ps (i : Nat) :
    (abs_state df prepost pw correction rand start i).ps =
      prob_state df prepost pw correction rand start i := rfl

lemma abs_state_pl (i : Nat) :
    (abs_state df prepost pw correction rand start i).pl = i := rfl

lemma abs_state_dict (i : Nat) :
    (abs_state df prepost pw correction rand start i).pl_dict =
      dict_upto df prepost pw correction rand start i := rfl

lemma abs_state_lcc (i : Nat) :
    (abs_state df prepost pw correction rand start i).layer_change_count =
      lcc df prepost pw correction rand start i := rfl

lemma abs_state_prev (i : Nat) :
    (abs_state df prepost pw correction rand start i).prev_unvisited =
      prev_count df prepost pw correction rand start i := rfl

lemma lcc_succ_eq (k : Nat) :
    lcc df prepost pw correction rand start (k+1) =
      if cand_count df prepost pw correction rand start k ≠
          prev_count df prepost pw correction rand start k then 0
      else lcc df prepost pw correction rand start k + 1 := rfl

lemma prev_count_succ (k : Nat) :
    prev_count df prepost pw correction rand start (k+1) =
      cand_count df prepost pw correction rand start k := rfl

/-- Running the loop from the abstract state before round `i+1`, where `R`
is the first stop-triggering round index at or after `i`, yields the layer
map of `R+1` rounds. -/
lemma lr_loop_eq (N : Nat) (hpw : pw ∈ df.wnames) :
    ∀ fuel i R, i ≤ R → R - i < fuel →
      (∀ j, i ≤ j → j < R → ¬ stop_trig df prepost pw correction rand start N j) →
      stop_trig df prepost pw correction rand start N R →
      lr_loop df prepost pw correction rand N fuel
          (abs_state df prepost pw correction rand start i) =
        .ok (some (dict_upto df prepost pw correction rand start (R+1))) := by
  intro fuel
  induction fuel with
  | zero => intro i R hiR hfuel hns hst; omega
  | succ fuel ih =>
    intro i R hiR hfuel hns hst
    have hstep : prob_step_checked df prepost pw correction rand
        (prob_state df prepost pw correction rand start i) =
        .ok (prob_layer df prepost pw correction rand start i,
          try_to_visit df prepost (prob_state df prepost pw correction rand start i).visited,
          prob_state df prepost pw correction rand start (i+1)) := by
      unfold prob_step_checked
      rw [if_pos hpw]
      rfl
    simp only [lr_loop, abs_state_ps, abs_state_pl, abs_state_dict, abs_state_lcc,
      abs_state_prev, hstep]
    have hlcceq : (if (try_to_visit df prepost
          (prob_state df prepost pw correction rand start i).visited).length ≠
            prev_count df prepost pw correction rand start i then 0
        else lcc df prepost pw correction rand start i + 1) =
        lcc df prepost pw correction rand start (i+1) := rfl
    rw [hlcceq]
    by_cases h0 : cand_count df prepost pw correction rand start i = 0
    · have hieq : i = R := by
        by_contra hne
        exact hns i le_rfl (by omega) (Or.inl h0)
      subst hieq
      rw [if_pos (show (try_to_visit df prepost
          (prob_state df prepost pw correction rand start i).visited).length = 0 from h0)]
      rw [← dict_upto_succ]
    · rw [if_neg (show ¬ (try_to_visit df prepost
          (prob_state df prepost pw correction rand start i).visited).length = 0 from h0)]
      by_cases h1 : lcc df prepost pw correction rand start (i+1) = N
      · have hieq : i = R := by
          by_contra hne
          exact hns i le_rfl (by omega) (Or.inr h1)
        subst hieq
        rw [if_pos h1, ← dict_upto_succ]
      · rw [if_neg h1]
        have hiR2 : i < R := by
          rcases Nat.lt_or_ge i R with h | h
          · exact h
          · have : i = R := le_antisymm hiR h
            subst this
            rcases hst with h2 | h2
            · exact absurd h2 h0
            · exact absurd h2 h1
        have harg : (⟨prob_state df prepost pw correction rand start (i+1), i+1,
            dict_upto df prepost pw correction rand start i ++
              [(i+1, prob_layer df prepost pw correction rand start i)],
            lcc df prepost pw correction rand start (i+1),
            (try_to_visit df prepost
              (prob_state df prepost pw correction rand start i).visited).length⟩ : RState) =
            abs_state df prepost pw correction rand start (i+1) := by
          rw [← dict_upto_succ]
          rfl
        rw [harg]
        exact ih (i+1) R (by omega) (by omega) (fun j hj1 hj2 => hns j (by omega) hj2) hst

/-! ## Termination: a measure that decreases every non-stopping round -/

lemma cand_count_congr {i j : Nat}
    (h : (prob_state df prepost pw correction rand start i).visited =
      (prob_state df prepost pw correction rand start j).visited) :
    cand_count df prepost pw correction rand start i =
      cand_count df prepost pw correction rand start j := by
  unfold cand_count
  rw [h]

lemma lcc_succ_lt (N i : Nat) (hN : 1 ≤ N)
    (hlcc : lcc df prepost pw correction rand start i < N)
    (hns : ¬ stop_trig df prepost pw correction rand start N i) :
    lcc df prepost pw correction rand start (i+1) < N := by
  have h2 : lcc df prepost pw correction rand start (i+1) ≠ N := fun h => hns (Or.inr h)
  rw [lcc_succ_eq] at h2 ⊢
  by_cases hb : cand_count df prepost pw correction rand start i ≠
      prev_count df prepost pw correction rand start i
  · rw [if_pos hb]
    omega
  · rw [if_neg hb] at h2 ⊢
    omega

lemma phiM_decr (N i : Nat) (hN : 1 ≤ N)
    (hlcc : lcc df prepost pw correction rand start i < N)
    (hns : ¬ stop_trig df prepost pw correction rand start N i) :
    phiM df prepost pw correction rand start N (i+1) <
      phiM df prepost pw correction rand start N i := by
  by_cases hv : (prob_state df prepost pw correction rand start (i+1)).visited =
      (prob_state df prepost pw correction rand start i).visited
  · -- the visited set did not change: the second summand strictly drops
    have hc : cand_count df prepost pw correction rand start (i+1) =
        cand_count df prepost pw correction rand start i :=
      cand_count_congr df prepost pw correction rand start hv
    unfold phiM
    rw [hv, hc, prev_count_succ, if_pos rfl]
    by_cases hb : cand_count df prepost pw correction rand start i =
        prev_count df prepost pw correction rand start i
    · rw [if_pos hb]
      have hl1 : lcc df prepost pw correction rand start (i+1) =
          lcc df prepost pw correction rand start i + 1 := by
        rw [lcc_succ_eq, if_neg (by simpa using hb)]
      have hl2 : lcc df prepost pw correction rand start (i+1) < N :=
        lcc_succ_lt df prepost pw correction rand start N i hN hlcc hns
      omega
    · rw [if_neg hb]
      have hl1 : lcc df prepost pw correction rand start (i+1) = 0 := by
        rw [lcc_succ_eq, if_pos (by simpa using hb)]
      omega
  · -- the visited set strictly grew: the first summand strictly drops
    have hsub : (prob_state df prepost pw correction rand start i).visited ⊆
        (prob_state df prepost pw correction rand start (i+1)).visited :=
      visited_mono_succ df prepost pw correction rand start i
    have hss : (prob_state df prepost pw correction rand start i).visited ⊂
        (prob_state df prepost pw correction rand start (i+1)).visited :=
      Finset.ssubset_iff_subset_ne.mpr ⟨hsub, fun h => hv h.symm⟩
    have hcard : ((nodeUniv df start) \
        (prob_state df prepost pw correction rand start (i+1)).visited).card <
        ((nodeUniv df start) \
          (prob_state df prepost pw correction rand start i).visited).card := by
      rw [Finset.card_sdiff (visited_sub_univ df prepost pw correction rand start (i+1)),
        Finset.card_sdiff (visited_sub_univ df prepost pw correction rand start i)]
      have h1 := Finset.card_lt_card hss
      have h2 := Finset.card_le_card (visited_sub_univ df prepost pw correction rand start (i+1))
      omega
    unfold phiM
    set c2 := ((nodeUniv df start) \
      (prob_state df prepost pw correction rand start (i+1)).visited).card with hc2
    set c1 := ((nodeUniv df start) \
      (prob_state df prepost pw correction rand start i).visited).card with hc1
    have ht2 : (if cand_count df prepost pw correction rand start (i+1) =
        prev_count df prepost pw correction rand start (i+1) then
          N - lcc df prepost pw correction rand start (i+1)
        else N+1) ≤ N + 1 := by
      split <;> omega
    calc c2 * (N+2) + (if cand_count df prepost pw correction rand start (i+1) =
          prev_count df prepost pw correction rand start (i+1) then
            N - lcc df prepost pw correction rand start (i+1)
          else N+1)
        ≤ c2 * (N+2) + (N+1) := Nat.add_le_add_left ht2 _
      _ < c2 * (N+2) + (N+2) := Nat.add_lt_add_left (Nat.lt_succ_self _) _
      _ = (c2+1) * (N+2) := (Nat.succ_mul c2 (N+2)).symm
      _ ≤ c1 * (N+2) := Nat.mul_le_mul_right _ (by omega)
      _ ≤ c1 * (N+2) + (if cand_count df prepost pw correction rand start i =
            prev_count df prepost pw correction rand start i then
              N - lcc df prepost pw correction rand start i
            else N+1) := Nat.le_add_right _ _

lemma stop_exists_aux (N : Nat) (hN : 1 ≤ N) :
    ∀ n i, lcc df prepost pw correction rand start i < N →
      phiM df prepost pw correction rand start N i ≤ n →
      ∃ R, i ≤ R ∧ R ≤ i + n ∧ stop_trig df prepost pw correction rand start N R := by
  intro n
  induction n with
  | zero =>
    intro i hlcc hphi
    by_cases hs : stop_trig df prepost pw correction rand start N i
    · exact ⟨i, le_rfl, by omega, hs⟩
    · have := phiM_decr df prepost pw correction rand start N i hN hlcc hs
      omega
  | succ n ihn =>
    intro i hlcc hphi
    by_cases hs : stop_trig df prepost pw correction rand start N i
    · exact ⟨i, le_rfl, by omega, hs⟩
    · have hd := phiM_decr df prepost pw correction rand start N i hN hlcc hs
      have hl := lcc_succ_lt df prepost pw correction rand start N i hN hlcc hs
      obtain ⟨R, h1, h2, h3⟩ := ihn (i+1) hl (by omega)
      exact ⟨R, by omega, by omega, h3⟩

lemma phiM_zero_lt_fuel (N : Nat) :
    phiM df prepost pw correction rand start N 0 < lr_fuel df start N := by
  unfold phiM lr_fuel
  have h1 : ((nodeUniv df start) \
      (prob_state df prepost pw correction rand start 0).visited).card ≤
      (nodeUniv df start).card :=
    Finset.card_le_card Finset.sdiff_subset
  have h2 : (if cand_count df prepost pw correction rand start 0 =
      prev_count df prepost pw correction rand start 0 then
        N - lcc df prepost pw correction rand start 0
      else N+1) ≤ N + 1 := by
    split <;> omega
  have h3 : ((nodeUniv df start) \
      (prob_state df prepost pw correction rand start 0).visited).card * (N+2) ≤
      (nodeUniv df start).card * (N+2) :=
    Nat.mul_le_mul_right _ h1
  omega

/-- Some round triggers a stop, and the first such round is reached within
the default fuel. -/
lemma first_stop_exists (N : Nat) (hN : 1 ≤ N) :
    ∃ R, R < lr_fuel df start N ∧ stop_trig df prepost pw correction rand start N R ∧
      ∀ j, j < R → ¬ stop_trig df prepost pw correction rand start N j := by
  obtain ⟨R0, hR1, hR2, hR3⟩ := stop_exists_aux df prepost pw correction rand start N hN
    (phiM df prepost pw correction rand start N 0) 0
    (show lcc df prepost pw correction rand start 0 < N from hN) le_rfl
  have hex : ∃ R, stop_trig df prepost pw correction rand start N R := ⟨R0, hR3⟩
  refine ⟨Nat.find hex, ?_, Nat.find_spec hex, fun j hj => Nat.find_min hex hj⟩
  have hle : Nat.find hex ≤ R0 := Nat.find_min' hex hR3
  have hphi := phiM_zero_lt_fuel df prepost pw correction rand start N
  omega

/-- The full run of `layer_realisation`: it stops at the first
stop-triggering round `R+1` and returns the layer map of `R+1` rounds. -/
lemma layer_realisation_eq (sids : List Nat) (N : Option Nat) (hpw : pw ∈ df.wnames)
    (hN : 1 ≤ N.getD 2) :
    ∃ R, stop_trig df prepost pw correction rand sids.toFinset (N.getD 2) R ∧
      (∀ j, j < R → ¬ stop_trig df prepost pw correction rand sids.toFinset (N.getD 2) j) ∧
      layer_realisation df sids prepost rand pw correction N =
        .ok (some (dict_upto df prepost pw correction rand sids.toFinset (R+1))) := by
  obtain ⟨R, hfu, hstop, hmin⟩ :=
    first_stop_exists df prepost pw correction rand sids.toFinset (N.getD 2) hN
  refine ⟨R, hstop, hmin, ?_⟩
  have h0 : layer_realisation df sids prepost rand pw correction N =
      lr_loop df prepost pw correction rand (N.getD 2) (lr_fuel df sids.toFinset (N.getD 2))
        (abs_state df prepost pw correction rand sids.toFinset 0) := rfl
  rw [h0]
  exact lr_loop_eq df prepost pw correction rand sids.toFinset (N.getD 2) hpw _ 0 R
    (Nat.zero_le R) (by omega) (fun j h1 h2 => hmin j h2) hstop

/-- With a missing weight column the loop raises at its first round. -/
lemma lr_loop_error (N : Nat) (hpw : pw ∉ df.wnames) :
    ∀ fuel st, 0 < fuel →
      lr_loop df prepost pw correction rand N fuel st = .error "KeyError" := by
  intro fuel st hf
  cases fuel with
  | zero => omega
  | succ fuel =>
    have hstep : prob_step_checked df prepost pw correction rand st.ps =
        .error "KeyError" := by
      unfold prob_step_checked
      rw [if_neg hpw]
    simp only [lr_loop, hstep]

/-! ## Full activation: the probabilistic step degenerates to the deterministic one -/

/-- If every row's weight is `1`, `correction = 1` and every draw is `< 1`,
every candidate row activates, and the probabilistic step yields exactly the
deterministic frontier. -/
lemma prob_step_full (s : PState)
    (hw : ∀ r ∈ df.rows, List.lookup pw r.wcols = some 1)
    (hr : ∀ i, rand i < 1) :
    (prob_step df prepost pw 1 rand s).1 = (get_next_layer_step df prepost s.visited).1 := by
  have hav : actually_visit df prepost pw 1 rand s =
      (try_to_visit df prepost s.visited).enum := by
    unfold actually_visit
    apply List.filter_eq_self.mpr
    intro p hp
    have hrow : p.2 ∈ df.rows :=
      try_to_visit_sub df prepost s.visited (List.snd_mem_of_mem_enum hp)
    have hwv : p.2.wval pw = 1 := by
      unfold Row.wval
      rw [hw p.2 hrow]
      rfl
    unfold activates
    rw [hwv, div_one]
    exact decide_eq_true (hr _)
  show ((actually_visit df prepost pw 1 rand s).map (fun p => p.2.toId prepost)).toFinset \
      s.visited =
    ((df.rows.filter (fun r => decide (r.fromId prepost ∈ s.visited))).map
      (fun r => r.toId prepost)).toFinset \ s.visited
  rw [hav]
  have hmap : ((try_to_visit df prepost s.visited).enum.map (fun p => p.2.toId prepost)) =
      (try_to_visit df prepost s.visited).map (fun r => r.toId prepost) := by
    rw [show (fun p : Nat × Row => p.2.toId prepost) =
      (fun r : Row => r.toId prepost) ∘ Prod.snd from rfl, ← List.map_map, List.enum_map_snd]
  rw [hmap]
  ext x
  simp only [Finset.mem_sdiff, List.mem_toFinset, List.mem_map, try_to_visit,
    List.mem_filter, decide_eq_true_eq]
  constructor
  · rintro ⟨⟨r, ⟨hr1, hr2, hr3⟩, rfl⟩, hx⟩
    exact ⟨⟨r, ⟨hr1, hr2⟩, rfl⟩, hx⟩
  · rintro ⟨⟨r, ⟨hr1, hr2⟩, rfl⟩, hx⟩
    exact ⟨⟨r, ⟨hr1, hr2, hx⟩, rfl⟩, hx⟩

/-! ## A first round with no candidates stops the run at once -/

/-- If the current visited set has no candidate edges, the loop records one
empty layer and stops immediately with the zero-candidate break. -/
lemma lr_loop_stop_now (N fuel : Nat) (st : RState) (hf : 0 < fuel) (hpw : pw ∈ df.wnames)
    (hempty : try_to_visit df prepost st.ps.visited = []) :
    lr_loop df prepost pw correction rand N fuel st =
      .ok (some (st.pl_dict ++ [(st.pl + 1, ∅)])) := by
  cases fuel with
  | zero => omega
  | succ fuel =>
    have hstep : prob_step_checked df prepost pw correction rand st.ps =
        .ok (∅, [], ⟨st.ps.visited, st.ps.draws⟩) := by
      unfold prob_step_checked prob_step actually_visit
      rw [if_pos hpw, hempty]
      simp
    simp only [lr_loop, hstep]
    simp

/-! ## The claims -/

/-- C1 counterexample: with stability window N=1, on an empty edge table
with start set {0}, the very first probabilistic round has 0 candidate
edges and the realisation stops exactly there — the returned layer map has
exactly the two entries layer 0 and layer 1 — contradicting the claim that
the realisation does not stop at the first round whose candidate-edge
count is 0 (and stops only at a second consecutive such round). -/
theorem claim_C1_counterexample :
    layer_realisation ⟨[], ["w"]⟩ [0] "pre" (fun _ => 0) "w" 1 (some 1) =
      .ok (some [(0, {0}), (1, ∅)]) ∧
    cand_count ⟨[], ["w"]⟩ "pre" "w" 1 (fun _ => 0) [0].toFinset 0 = 0 :=
  ⟨rfl, rfl⟩

/-- C1 (amended): with stability window N=1, a round with 0 candidate edges
can only be the final round of the realisation: every round before the last
has a nonzero candidate-edge count, so the realisation stops exactly at the
first round whose candidate-edge count is 0, should such a round occur (two
consecutive zero-candidate rounds never occur). -/
theorem claim_C1_amended (df : EdgeTable) (sids : List Nat) (prepost pw : String)
    (correction : ℚ) (rand : Nat → ℚ) (hpw : pw ∈ df.wnames) :
    ∃ R, layer_realisation df sids prepost rand pw correction (some 1) =
        .ok (some (dict_upto df prepost pw correction rand sids.toFinset (R+1))) ∧
      (cand_count df prepost pw correction rand sids.toFinset R = 0 ∨
        lcc df prepost pw correction rand sids.toFinset (R+1) = 1) ∧
      ∀ j, j < R → cand_count df prepost pw correction rand sids.toFinset j ≠ 0 := by
  obtain ⟨R, hstop, hmin, heq⟩ :=
    layer_realisation_eq df prepost pw correction rand sids (some 1) hpw (by decide)
  exact ⟨R, heq, hstop, fun j hj h0 => hmin j hj (Or.inl h0)⟩

/-- C1 (amended) witness: concrete instance of the amended claim. -/
theorem claim_C1_amended_witness :
    ∃ R, layer_realisation ⟨[], ["w"]⟩ [0] "pre" (fun _ => 0) "w" 1 (some 1) =
        .ok (some (dict_upto ⟨[], ["w"]⟩ "pre" "w" 1 (fun _ => 0) [0].toFinset (R+1))) ∧
      (cand_count ⟨[], ["w"]⟩ "pre" "w" 1 (fun _ => 0) [0].toFinset R = 0 ∨
        lcc ⟨[], ["w"]⟩ "pre" "w" 1 (fun _ => 0) [0].toFinset (R+1) = 1) ∧
      ∀ j, j < R → cand_count ⟨[], ["w"]⟩ "pre" "w" 1 (fun _ => 0) [0].toFinset j ≠ 0 :=
  claim_C1_amended ⟨[], ["w"]⟩ [0] "pre" "w" 1 (fun _ => 0) (by decide)

/-- C2: in `get_next_layer_probabilistic`, a candidate edge (row `p.2` at
position `p.1` of `try_to_visit`) is activated iff its weight divided by
`correction` strictly exceeds its uniform draw; consequently, for every
`correction` in (0,1], an edge whose weight is at least `correction`
activates for every possible draw in [0,1). -/
theorem claim_C2 (df : EdgeTable) (prepost pw : String) (rand : Nat → ℚ) (c : ℚ)
    (hc0 : 0 < c) (_hc1 : c ≤ 1) :
    (∀ s p, p ∈ actually_visit df prepost pw c rand s ↔
      (p ∈ (try_to_visit df prepost s.visited).enum ∧
        p.2.wval pw / c > rand (s.draws + p.1))) ∧
    (∀ w r, c ≤ w → 0 ≤ r → r < 1 → activates w c r = true) := by
  constructor
  · intro s p
    unfold actually_visit
    rw [List.mem_filter]
    unfold activates
    simp only [decide_eq_true_eq]
  · intro w r hw hr0 hr1
    unfold activates
    have h1 : (1:ℚ) ≤ w / c := (one_le_div hc0).mpr hw
    exact decide_eq_true (lt_of_lt_of_le hr1 h1)

/-- C2 witness: concrete instance. -/
theorem claim_C2_witness :
    (∀ s p, p ∈ actually_visit ⟨[], ["w"]⟩ "pre" "w" 1 (fun _ => 0) s ↔
      (p ∈ (try_to_visit ⟨[], ["w"]⟩ "pre" s.visited).enum ∧
        p.2.wval "w" / 1 > (fun _ : Nat => (0:ℚ)) (s.draws + p.1))) ∧
    (∀ w r, (1:ℚ) ≤ w → 0 ≤ r → r < 1 → activates w 1 r = true) :=
  claim_C2 ⟨[], ["w"]⟩ "pre" "w" (fun _ => 0) 1 (by decide) (by decide)

/-- C3: for every run of `layer_realisation` (weight column present,
stability window at least 1): layer 0 of the returned layer map equals the
start set exactly; entries at distinct layer indices hold pairwise disjoint
sets; for every prefix of layers, the union of its sets equals the visited
set after that many probabilistic rounds; and the visited set never shrinks
between rounds. -/
theorem claim_C3 (df : EdgeTable) (sids : List Nat) (prepost pw : String)
    (correction : ℚ) (rand : Nat → ℚ) (N : Option Nat)
    (hpw : pw ∈ df.wnames) (hN : 1 ≤ N.getD 2) :
    ∃ R m, layer_realisation df sids prepost rand pw correction N = .ok (some m) ∧
      m.head? = some (0, sids.toFinset) ∧
      (∀ p ∈ m, ∀ q ∈ m, p.1 ≠ q.1 → Disjoint p.2 q.2) ∧
      (∀ k, k ≤ R + 1 → set_union (m.take (k+1)) =
        (prob_state df prepost pw correction rand sids.toFinset k).visited) ∧
      (∀ i j, i ≤ j → (prob_state df prepost pw correction rand sids.toFinset i).visited ⊆
        (prob_state df prepost pw correction rand sids.toFinset j).visited) := by
  obtain ⟨R, hstop, hmin, heq⟩ :=
    layer_realisation_eq df prepost pw correction rand sids N hpw hN
  refine ⟨R, dict_upto df prepost pw correction rand sids.toFinset (R+1), heq, rfl, ?_, ?_, ?_⟩
  · intro p hp q hq hne
    rcases mem_dict_upto df prepost pw correction rand sids.toFinset hp with hp2 | ⟨i, hi, hp2⟩ <;>
      rcases mem_dict_upto df prepost pw correction rand sids.toFinset hq with hq2 | ⟨j, hj, hq2⟩ <;>
        subst hp2 <;> subst hq2
    · exact absurd rfl hne
    · exact start_disjoint_layer df prepost pw correction rand sids.toFinset j
    · exact (start_disjoint_layer df prepost pw correction rand sids.toFinset i).symm
    · have hij : i ≠ j := by simpa using hne
      rcases Nat.lt_or_ge i j with h | h
      · exact layers_disjoint df prepost pw correction rand sids.toFinset h
      · have : j < i := by omega
        exact (layers_disjoint df prepost pw correction rand sids.toFinset this).symm
  · intro k hk
    rw [dict_upto_take df prepost pw correction rand sids.toFinset hk,
      set_union_dict df prepost pw correction rand sids.toFinset k]
  · intro i j hij
    exact visited_mono df prepost pw correction rand sids.toFinset hij

/-- C3 witness: concrete instance. -/
theorem claim_C3_witness :
    ∃ R m, layer_realisation ⟨[], ["w"]⟩ [0] "pre" (fun _ => 0) "w" 1 (some 1) =
        .ok (some m) ∧
      m.head? = some (0, [0].toFinset) ∧
      (∀ p ∈ m, ∀ q ∈ m, p.1 ≠ q.1 → Disjoint p.2 q.2) ∧
      (∀ k, k ≤ R + 1 → set_union (m.take (k+1)) =
        (prob_state ⟨[], ["w"]⟩ "pre" "w" 1 (fun _ => 0) [0].toFinset k).visited) ∧
      (∀ i j, i ≤ j →
        (prob_state ⟨[], ["w"]⟩ "pre" "w" 1 (fun _ => 0) [0].toFinset i).visited ⊆
        (prob_state ⟨[], ["w"]⟩ "pre" "w" 1 (fun _ => 0) [0].toFinset j).visited) :=
  claim_C3 ⟨[], ["w"]⟩ [0] "pre" "w" 1 (fun _ => 0) (some 1) (by decide) (by decide)

/-- C4: with `correction = 1` and every edge weight equal to `1`, every
candidate edge activates (each draw is `< 1`), so each round of the
probabilistic expander yields exactly the new-node set of the corresponding
round of the deterministic `get_next_layer`, and both run over the same
visited sets. -/
theorem claim_C4 (df : EdgeTable) (prepost pw : String) (rand : Nat → ℚ)
    (start : Finset Nat)
    (hw : ∀ r ∈ df.rows, List.lookup pw r.wcols = some 1)
    (hr : ∀ i, rand i < 1) :
    ∀ k, prob_layer df prepost pw 1 rand start k = det_layer df prepost start k ∧
      (prob_state df prepost pw 1 rand start k).visited = det_visited df prepost start k := by
  intro k
  induction k with
  | zero =>
    constructor
    · exact prob_step_full df prepost pw rand (prob_state df prepost pw 1 rand start 0) hw hr
    · rfl
  | succ k ih =>
    obtain ⟨ihl, ihv⟩ := ih
    have hv : (prob_state df prepost pw 1 rand start (k+1)).visited =
        det_visited df prepost start (k+1) := by
      rw [visited_succ, ihv, ihl]
      rfl
    refine ⟨?_, hv⟩
    have h1 := prob_step_full df prepost pw rand
      (prob_state df prepost pw 1 rand start (k+1)) hw hr
    unfold prob_layer
    rw [h1, hv]
    rfl

/-- C4 witness: concrete instance at round 1. -/
theorem claim_C4_witness :
    prob_layer ⟨[⟨0, 1, [("w", 1)]⟩], ["w"]⟩ "pre" "w" 1 (fun _ => 0) {0} 1 =
        det_layer ⟨[⟨0, 1, [("w", 1)]⟩], ["w"]⟩ "pre" {0} 1 ∧
      (prob_state ⟨[⟨0, 1, [("w", 1)]⟩], ["w"]⟩ "pre" "w" 1 (fun _ => 0) {0} 1).visited =
        det_visited ⟨[⟨0, 1, [("w", 1)]⟩], ["w"]⟩ "pre" {0} 1 :=
  claim_C4 ⟨[⟨0, 1, [("w", 1)]⟩], ["w"]⟩ "pre" "w" (fun _ => 0) {0}
    (by decide) (fun _ => show (0:ℚ) < 1 by decide) 1

/-- C5: two runs of `layer_realisation` with the same edge table (same rows
in the same order), same start ids, same direction mode, same seeded random
stream (same seed), same weight column, same correction and same N return
identical layer maps. -/
theorem claim_C5 (dfa dfb : EdgeTable) (sidsa sidsb : List Nat)
    (preposta prepostb pwa pwb : String) (ca cb : ℚ) (randa randb : Nat → ℚ)
    (Na Nb : Option Nat)
    (hdf : dfa = dfb) (hsids : sidsa = sidsb) (hprepost : preposta = prepostb)
    (hrand : randa = randb) (hpw : pwa = pwb) (hc : ca = cb) (hN : Na = Nb) :
    layer_realisation dfa sidsa preposta randa pwa ca Na =
      layer_realisation dfb sidsb prepostb randb pwb cb Nb := by
  subst hdf hsids hprepost hrand hpw hc hN
  rfl

/-- C5 witness: concrete instance. -/
theorem claim_C5_witness :
    layer_realisation ⟨[], ["w"]⟩ [0] "pre" (fun _ => 0) "w" 1 (some 1) =
      layer_realisation ⟨[], ["w"]⟩ [0] "pre" (fun _ => 0) "w" 1 (some 1) :=
  claim_C5 ⟨[], ["w"]⟩ ⟨[], ["w"]⟩ [0] [0] "pre" "pre" "w" "w" 1 1
    (fun _ => 0) (fun _ => 0) (some 1) (some 1) rfl rfl rfl rfl rfl rfl rfl

/-- C6: if `prop_weight` names a column not present in the edge table,
`layer_realisation` fails with a `KeyError` raised at the first
probabilistic step: the very first `prob_step_checked` (the first advance
of the generator, after `prob_init` has constructed its state without any
error) already errors, and the whole run returns that error. -/
theorem claim_C6 (df : EdgeTable) (sids : List Nat) (prepost pw : String)
    (correction : ℚ) (rand : Nat → ℚ) (N : Option Nat) (hpw : pw ∉ df.wnames) :
    layer_realisation df sids prepost rand pw correction N = .error "KeyError" ∧
    prob_step_checked df prepost pw correction rand (prob_init sids.toFinset) =
      .error "KeyError" := by
  constructor
  · have h0 : layer_realisation df sids prepost rand pw correction N =
        lr_loop df prepost pw correction rand (N.getD 2)
          (lr_fuel df sids.toFinset (N.getD 2))
          ⟨prob_init sids.toFinset, 0, [(0, sids.toFinset)], 0, 0⟩ := rfl
    rw [h0]
    exact lr_loop_error df prepost pw correction rand (N.getD 2) hpw _ _ (Nat.succ_pos _)
  · unfold prob_step_checked
    rw [if_neg hpw]

/-- C6 witness: concrete instance. -/
theorem claim_C6_witness :
    layer_realisation ⟨[], ["w"]⟩ [0] "pre" (fun _ => 0) "z" 1 (some 1) =
      .error "KeyError" ∧
    prob_step_checked ⟨[], ["w"]⟩ "pre" "z" 1 (fun _ => 0) (prob_init [0].toFinset) =
      .error "KeyError" :=
  claim_C6 ⟨[], ["w"]⟩ [0] "pre" "z" 1 (fun _ => 0) (some 1) (by decide)

/-- C7: if the start set is empty, or no start id occurs as a "from"
endpoint of any row, `layer_realisation` raises no error and terminates
after exactly one probabilistic round, returning the layer map with layer 0
the start set and layer 1 empty. -/
theorem claim_C7 (df : EdgeTable) (sids : List Nat) (prepost pw : String)
    (correction : ℚ) (rand : Nat → ℚ) (N : Option Nat) (hpw : pw ∈ df.wnames)
    (hstart : ∀ r ∈ df.rows, r.fromId prepost ∉ sids.toFinset) :
    layer_realisation df sids prepost rand pw correction N =
      .ok (some [(0, sids.toFinset), (1, ∅)]) := by
  have hempty : try_to_visit df prepost sids.toFinset = [] := by
    unfold try_to_visit
    apply List.filter_eq_nil_iff.mpr
    intro r hr
    simp only [decide_eq_true_eq, not_and]
    intro hf
    exact absurd hf (hstart r hr)
  have h0 : layer_realisation df sids prepost rand pw correction N =
      lr_loop df prepost pw correction rand (N.getD 2)
        (lr_fuel df sids.toFinset (N.getD 2))
        ⟨prob_init sids.toFinset, 0, [(0, sids.toFinset)], 0, 0⟩ := rfl
  have hpos : 0 < lr_fuel df sids.toFinset (N.getD 2) := Nat.succ_pos _
  rw [h0, lr_loop_stop_now df prepost pw correction rand (N.getD 2)
    (lr_fuel df sids.toFinset (N.getD 2)) _ hpos hpw hempty]
  rfl

/-- C7 witness: concrete instance (start id 0 never occurs as a "from"
endpoint of the single row (5,6)). -/
theorem claim_C7_witness :
    layer_realisation ⟨[⟨5, 6, [("w", 1)]⟩], ["w"]⟩ [0] "pre" (fun _ => 0) "w" 1 none =
      .ok (some [(0, [0].toFinset), (1, ∅)]) :=
  claim_C7 ⟨[⟨5, 6, [("w", 1)]⟩], ["w"]⟩ [0] "pre" "w" 1 (fun _ => 0) none
    (by decide) (by decide)

/-- C8: every value yielded by `get_next_layer` equals the set of "to"
endpoints of rows whose "from" endpoint is in the current visited set,
minus the visited set, and is then added to visited; once one yielded set
is empty every later one is empty; and the yielded sequence is identical
across re-runs on the same table, start set and direction mode. -/
theorem claim_C8 (df : EdgeTable) (prepost : String) (start : Finset Nat) :
    (∀ k, det_layer df prepost start k =
        ((df.rows.filter (fun r => decide (r.fromId prepost ∈ det_visited df prepost start k))).map
          (fun r => r.toId prepost)).toFinset \ det_visited df prepost start k ∧
      det_visited df prepost start (k+1) =
        det_visited df prepost start k ∪ det_layer df prepost start k) ∧
    (∀ k m, det_layer df prepost start k = ∅ → k ≤ m → det_layer df prepost start m = ∅) ∧
    (∀ dfb prepostb startb, df = dfb → prepost = prepostb → start = startb →
      ∀ k, det_layer df prepost start k = det_layer dfb prepostb startb k) := by
  refine ⟨fun k => ⟨rfl, rfl⟩, ?_, ?_⟩
  · intro k m h0 hkm
    have hconst : ∀ j, det_visited df prepost start (k + j) =
        det_visited df prepost start k := by
      intro j
      induction j with
      | zero => rfl
      | succ j ihj =>
        have hstep : det_visited df prepost start (k+j+1) =
            det_visited df prepost start (k+j) ∪ det_layer df prepost start (k+j) := rfl
        have hl : det_layer df prepost start (k+j) = ∅ := by
          unfold det_layer
          rw [ihj]
          exact h0
        rw [show k + (j+1) = (k+j)+1 from rfl, hstep, hl, ihj, Finset.union_empty]
    have hm : det_layer df prepost start m = det_layer df prepost start k := by
      unfold det_layer
      have h2 : m = k + (m - k) := by omega
      rw [h2, hconst]
    rw [hm, h0]
  · intro dfb prepostb startb h1 h2 h3 k
    subst h1
    subst h2
    subst h3
    rfl

/-- C8 witness: concrete instance, using the second conjunct — on the empty
table the 0-th yielded set is empty, hence so is the 5-th. -/
theorem claim_C8_witness :
    det_layer ⟨[], ["w"]⟩ "pre" {0} 5 = ∅ :=
  (claim_C8 ⟨[], ["w"]⟩ "pre" {0}).2.1 0 5 (by decide) (by decide)

/-- C9: the run of `layer_realisation` records each returned layer (even an
empty one) under the next layer index 1,2,…; the stability counter is reset
to 0 after a round whose candidate-edge count differs from the previous
round's, and incremented otherwise; and the run stops at the first round
whose candidate-edge count is 0 or whose stability counter reaches N —
every earlier round satisfies neither stop condition. -/
theorem claim_C9 (df : EdgeTable) (sids : List Nat) (prepost pw : String)
    (correction : ℚ) (rand : Nat → ℚ) (N : Option Nat)
    (hpw : pw ∈ df.wnames) (hN : 1 ≤ N.getD 2) :
    ∃ R, layer_realisation df sids prepost rand pw correction N =
        .ok (some ((0, sids.toFinset) :: (List.range (R+1)).map
          (fun j => (j+1, prob_layer df prepost pw correction rand sids.toFinset j)))) ∧
      (∀ i, lcc df prepost pw correction rand sids.toFinset (i+1) =
        if cand_count df prepost pw correction rand sids.toFinset i ≠
            prev_count df prepost pw correction rand sids.toFinset i then 0
        else lcc df prepost pw correction rand sids.toFinset i + 1) ∧
      (cand_count df prepost pw correction rand sids.toFinset R = 0 ∨
        lcc df prepost pw correction rand sids.toFinset (R+1) = N.getD 2) ∧
      (∀ j, j < R → cand_count df prepost pw correction rand sids.toFinset j ≠ 0 ∧
        lcc df prepost pw correction rand sids.toFinset (j+1) ≠ N.getD 2) := by
  obtain ⟨R, hstop, hmin, heq⟩ :=
    layer_realisation_eq df prepost pw correction rand sids N hpw hN
  refine ⟨R, heq, fun i => lcc_succ_eq df prepost pw correction rand sids.toFinset i,
    hstop, fun j hj => ⟨fun h => hmin j hj (Or.inl h), fun h => hmin j hj (Or.inr h)⟩⟩

/-- C9 witness: concrete instance. -/
theorem claim_C9_witness :
    ∃ R, layer_realisation ⟨[], ["w"]⟩ [0] "pre" (fun _ => 0) "w" 1 (some 1) =
        .ok (some ((0, [0].toFinset) :: (List.range (R+1)).map
          (fun j => (j+1, prob_layer ⟨[], ["w"]⟩ "pre" "w" 1 (fun _ => 0) [0].toFinset j)))) ∧
      (∀ i, lcc ⟨[], ["w"]⟩ "pre" "w" 1 (fun _ => 0) [0].toFinset (i+1) =
        if cand_count ⟨[], ["w"]⟩ "pre" "w" 1 (fun _ => 0) [0].toFinset i ≠
            prev_count ⟨[], ["w"]⟩ "pre" "w" 1 (fun _ => 0) [0].toFinset i then 0
        else lcc ⟨[], ["w"]⟩ "pre" "w" 1 (fun _ => 0) [0].toFinset i + 1) ∧
      (cand_count ⟨[], ["w"]⟩ "pre" "w" 1 (fun _ => 0) [0].toFinset R = 0 ∨
        lcc ⟨[], ["w"]⟩ "pre" "w" 1 (fun _ => 0) [0].toFinset (R+1) = (some 1).getD 2) ∧
      (∀ j, j < R → cand_count ⟨[], ["w"]⟩ "pre" "w" 1 (fun _ => 0) [0].toFinset j ≠ 0 ∧
        lcc ⟨[], ["w"]⟩ "pre" "w" 1 (fun _ => 0) [0].toFinset (j+1) ≠ (some 1).getD 2) :=
  claim_C9 ⟨[], ["w"]⟩ [0] "pre" "w" 1 (fun _ => 0) (some 1) (by decide) (by decide)

/-- C10: for every finite edge table, finite start set and stability window
N ≥ 1 (weight column present), `layer_realisation` terminates and returns a
(finite) layer map: the run reaches a stop condition within the fuel bound,
because the visited set grows monotonically inside the finite node universe
and otherwise the stability counter climbs to N. -/
theorem claim_C10 (df : EdgeTable) (sids : List Nat) (prepost pw : String)
    (correction : ℚ) (rand : Nat → ℚ) (n : Nat) (hpw : pw ∈ df.wnames) (hn : 1 ≤ n) :
    ∃ m, layer_realisation df sids prepost rand pw correction (some n) = .ok (some m) := by
  obtain ⟨R, hstop, hmin, heq⟩ :=
    layer_realisation_eq df prepost pw correction rand sids (some n) hpw hn
  exact ⟨_, heq⟩

/-- C10 witness: concrete instance. -/
theorem claim_C10_witness :
    ∃ m, layer_realisation ⟨[⟨0, 1, [("w", 1)]⟩], ["w"]⟩ [0] "pre" (fun _ => 0) "w" 1
      (some 3) = .ok (some m) :=
  claim_C10 ⟨[⟨0, 1, [("w", 1)]⟩], ["w"]⟩ [0] "pre" "w" 1 (fun _ => 0) 3
    (by decide) (by decide)
